import Mathlib

/-
Verification development for the 2024 Capital Monitoring Dashboard
(entity-reconciliation and compliance analytics core).

Shallow embedding conventions:
  * Python strings are modelled as lists of Unicode code points (`List ℕ`),
    with the ASCII fragment of `str.upper`, `str.strip` and `str.split`
    (the repository's registry names and codes are ASCII).
  * A Python value that may be `None` or `NaN` is an `Option`.
  * `difflib.SequenceMatcher(None, a, b).ratio()` is an external library
    call; it is modelled as an explicit similarity-function parameter
    `sim : List ℕ → List ℕ → ℚ` (its codomain: rationals `2*M/T ∈ [0,1]`).
    Every loop that consumes the score is translated literally.
  * Database tables are lists of records; SQLAlchemy `filter_by(...).first()`
    becomes `List.find?`, a join becomes an explicit `filterMap`.
  * Source float values (rates, appropriations) are rationals; the
    2-decimal display rounding `round(x, 2)` applied at the output
    boundary of the analytics methods is not modelled (every claim below
    is about the computed quantity those lines produce, cited pre-round).
-/

/-! ## Python string primitives (ASCII model) -/

/-- Python whitespace characters recognised by `str.strip()` / `str.split()`
(ASCII fragment): space, tab, newline, carriage return, vertical tab, form feed. -/
def isSpaceCh (c : ℕ) : Bool :=
  c = 32 || c = 9 || c = 10 || c = 13 || c = 11 || c = 12

/-- Python `str.upper` on one code point (ASCII fragment). -/
def toUpperCh (c : ℕ) : ℕ :=
  if 97 ≤ c ∧ c ≤ 122 then c - 32 else c

/-- Python `str.upper` (ASCII fragment). -/
def pyUpper (s : List ℕ) : List ℕ := s.map toUpperCh

/-- Python `str.strip()`: drop leading and trailing whitespace. -/
def pyStrip (s : List ℕ) : List ℕ :=
  ((s.dropWhile isSpaceCh).reverse.dropWhile isSpaceCh).reverse

/-- Accumulator-based splitter behind `pySplitWs`; `acc` holds the current
word reversed. -/
def splitAux : List ℕ → List ℕ → List (List ℕ)
  | [], acc => if acc.isEmpty then [] else [acc.reverse]
  | c :: cs, acc =>
    if isSpaceCh c then
      if acc.isEmpty then splitAux cs [] else acc.reverse :: splitAux cs []
    else splitAux cs (c :: acc)

/-- Python `str.split()` with no argument: split on whitespace runs,
dropping empty pieces. -/
def pySplitWs (s : List ℕ) : List (List ℕ) := splitAux s []

/-- Python `' '.join(words)`. -/
def unwordsWs : List (List ℕ) → List ℕ
  | [] => []
  | [w] => w
  | w :: ws => w ++ 32 :: unwordsWs ws

/-- Python `s.replace('&', ' AND ')` (38 = `&`, 65 78 68 = `AND`). -/
def replaceAmp (s : List ℕ) : List ℕ :=
  s.flatMap (fun c => if c = 38 then [32, 65, 78, 68, 32] else [c])

/-- Python `' '.join(s.split())`: collapse whitespace runs to single spaces
and trim. -/
def collapseWs (s : List ℕ) : List ℕ := unwordsWs (pySplitWs s)

/-- Check that `pat` is a leading segment of `s`. -/
def leadMatch : List ℕ → List ℕ → Bool
  | [], _ => true
  | _ :: _, [] => false
  | p :: ps, c :: cs => p == c && leadMatch ps cs

/-- Python `s.endswith(pat)`. -/
def endsWithSeg (pat s : List ℕ) : Bool := leadMatch pat.reverse s.reverse

/-- Python `pat in s` (contiguous substring containment). -/
def occursIn (pat : List ℕ) : List ℕ → Bool
  | [] => pat.isEmpty
  | c :: cs => leadMatch pat (c :: cs) || occursIn pat cs

/-- Python `'0' <= ch <= '9'` (48..57). -/
def isDigitCh (c : ℕ) : Bool := 48 ≤ c && c ≤ 57

/-! ## Name and code normalizers -/

/-- Model of `MinistryAgency.normalize_name` (src/app/models.py:306-321):
return `""` for falsy input; else uppercase, strip, replace `&` with
`" AND "`, and collapse whitespace via `' '.join(name.split())`. -/
def normalize_name (s : List ℕ) : List ℕ :=
  if s = [] then [] else collapseWs (replaceAmp (pyStrip (pyUpper s)))

/-- Model of `AgencyConsolidationRules.HQ_SUFFIXES` (src/app/analytics.py:78-80):
the strings `"- HQTRS"`, `"- HQ"`, `"HQTRS"`, `"HQ"`, `"HEADQUARTERS"`,
`"- HEADQUARTERS"`, in the source's order. -/
def HQ_SUFFIXES : List (List ℕ) :=
  [[45, 32, 72, 81, 84, 82, 83],
   [45, 32, 72, 81],
   [72, 81, 84, 82, 83],
   [72, 81],
   [72, 69, 65, 68, 81, 85, 65, 82, 84, 69, 82, 83],
   [45, 32, 72, 69, 65, 68, 81, 85, 65, 82, 84, 69, 82, 83]]

/-- Body of one iteration of the HQ-suffix loop
(src/app/analytics.py:103-105): if the current string ends with the suffix,
cut it off (`normalized[:-len(suffix)]`) and strip. -/
def stripOneSuffix (cur suf : List ℕ) : List ℕ :=
  if endsWithSeg suf cur then pyStrip (cur.take (cur.length - suf.length)) else cur

/-- HQ-suffix loop of `AgencyConsolidationRules.normalize_ministry_name`:
a fold of `stripOneSuffix` over `HQ_SUFFIXES` in order. -/
def stripHQ (s : List ℕ) : List ℕ := HQ_SUFFIXES.foldl stripOneSuffix s

/-- Model of `AgencyConsolidationRules.normalize_ministry_name`
(src/app/analytics.py:94-110): `""` for falsy input; else uppercase+strip,
strip HQ suffixes in list order, replace `&` with `" AND "`, collapse
whitespace. -/
def normalize_ministry_name (s : List ℕ) : List ℕ :=
  if s = [] then [] else collapseWs (replaceAmp (stripHQ (pyStrip (pyUpper s))))

/-- Python `s.endswith('.0')` then cut, part of code normalization
(46 = `.`, 48 = `0`). -/
def dropDotZero (s : List ℕ) : List ℕ :=
  if endsWithSeg [46, 48] s then s.take (s.length - 2) else s

/-- Model of `DataCleaner.normalize_agency_code` (src/app/data_cleaner.py:30-52):
`None`/`NaN` gives `None`; else strip, cut a trailing `.0`, keep only digits,
strip leading zeros, and return `None` when nothing is left. -/
def normalize_agency_code : Option (List ℕ) → Option (List ℕ)
  | none => none
  | some s =>
    let s4 := ((dropDotZero (pyStrip s)).filter isDigitCh).dropWhile (· == 48)
    if s4 = [] then none else some s4

/-- Model of `DataCleaner.normalize_text` (src/app/data_cleaner.py:19-28):
`None` for non-text/falsy input, else `MinistryAgency.normalize_name`,
mapped back to `None` when the result is empty. -/
def normalize_text : Option (List ℕ) → Option (List ℕ)
  | none => none
  | some s => let n := normalize_name s; if n = [] then none else some n

/-! ## Registry data model and the matching pipeline -/

/-- Model of the `MinistryAgency` reference table row (src/app/models.py:256-292),
restricted to the columns the matching and analytics code reads. -/
structure MinistryAgency where
  id : ℕ
  ministry_code : List ℕ
  agency_code : List ℕ
  agency_name : List ℕ
  ministry_name : List ℕ
  agency_name_normalized : List ℕ
  is_self_accounting : Bool
  is_parastatal : Bool
  is_active : Bool
deriving DecidableEq

/-- Match provenance returned by `DataCleaner.match_agency_to_gifmis`
(src/app/data_cleaner.py:142-275). The source encodes fuzzy scores into the
label string (`f"FUZZY_..._{int(best_score*100)}%"`); here the score is
carried as data, as the spec's design notes themselves prescribe. -/
inductive MatchType where
  | NO_AGENCY_NAME
  | EXACT_AGENCY_CODE_MATCH
  | EXACT_NAME_WITHIN_MINISTRY
  | FUZZY_WITHIN_MINISTRY (score : ℚ)
  | EXACT_NAME_MATCH
  | FUZZY_MATCH (score : ℚ)
  | NO_MATCH
deriving DecidableEq

/-- Loop body of the scoped fuzzy search (src/app/data_cleaner.py:204-213):
update `(best_match, best_score)` when `score > best_score and score >= 0.85`. -/
def scopedStep (f : MinistryAgency → ℚ) (st : Option MinistryAgency × ℚ)
    (a : MinistryAgency) : Option MinistryAgency × ℚ :=
  if f a > st.2 ∧ f a ≥ 17/20 then (some a, f a) else st

/-- Scoped (within-ministry) fuzzy pick: fold of `scopedStep` from
`best_match = None, best_score = 0.0`. -/
def fuzzyScopedPick (f : MinistryAgency → ℚ) (l : List MinistryAgency) :
    Option MinistryAgency × ℚ :=
  l.foldl (scopedStep f) (none, 0)

/-- Loop body of a best-score search with a strict comparison
(src/app/data_cleaner.py:252-261 with initial best 0.0, and
src/app/analytics.py:154-167 with initial best = threshold):
update when `score > best_score`. -/
def strictStep (f : MinistryAgency → ℚ) (st : Option MinistryAgency × ℚ)
    (a : MinistryAgency) : Option MinistryAgency × ℚ :=
  if f a > st.2 then (some a, f a) else st

/-- Best-score fold with a strict comparison, from `(None, t)`. -/
def fuzzyStrictPick (f : MinistryAgency → ℚ) (l : List MinistryAgency) (t : ℚ) :
    Option MinistryAgency × ℚ :=
  l.foldl (strictStep f) (none, t)

/-- Step 1 of `match_agency_to_gifmis` (src/app/data_cleaner.py:155-174):
exact agency-code match against active entities. -/
def matchStepCode (registry : List MinistryAgency) (agency_code : Option (List ℕ)) :
    Option (MinistryAgency × MatchType) :=
  match agency_code with
  | none => none
  | some c =>
    if c = [] then none
    else
      match normalize_agency_code (some c) with
      | none => none
      | some nc =>
        (registry.find? (fun a => a.agency_code == nc && a.is_active)).map
          (fun a => (a, MatchType.EXACT_AGENCY_CODE_MATCH))

/-- Step 2 of `match_agency_to_gifmis` (src/app/data_cleaner.py:176-224):
within a supplied ministry, exact normalized-name match first, then the
scoped fuzzy pick at threshold 0.85. -/
def matchStepMinistry (sim : List ℕ → List ℕ → ℚ) (registry : List MinistryAgency)
    (ministry_code : Option (List ℕ)) (nn : Option (List ℕ)) :
    Option (MinistryAgency × MatchType) :=
  match ministry_code, nn with
  | some mc, some n =>
    if mc = [] then none
    else
      match normalize_agency_code (some mc) with
      | none => none
      | some nmc =>
        let inMin := registry.filter (fun a => a.ministry_code == nmc && a.is_active)
        match inMin.find? (fun a => a.agency_name_normalized == n) with
        | some a => some (a, MatchType.EXACT_NAME_WITHIN_MINISTRY)
        | none =>
          match fuzzyScopedPick (fun a => sim n a.agency_name_normalized) inMin with
          | (some a, s) => some (a, MatchType.FUZZY_WITHIN_MINISTRY s)
          | (none, _) => none
  | _, _ => none

/-- Step 3 of `match_agency_to_gifmis` (src/app/data_cleaner.py:226-241):
global exact normalized-name match over active entities. -/
def matchStepGlobalName (registry : List MinistryAgency) (nn : Option (List ℕ)) :
    Option (MinistryAgency × MatchType) :=
  match nn with
  | none => none
  | some n =>
    (registry.find? (fun a => a.agency_name_normalized == n && a.is_active)).map
      (fun a => (a, MatchType.EXACT_NAME_MATCH))

/-- Step 4 of `match_agency_to_gifmis` (src/app/data_cleaner.py:243-272):
global best-score search (strict comparison from 0.0), accepted when the
best score is at least 0.90. -/
def matchStepGlobalFuzzy (sim : List ℕ → List ℕ → ℚ) (registry : List MinistryAgency)
    (nn : Option (List ℕ)) : Option (MinistryAgency × MatchType) :=
  match nn with
  | none => none
  | some n =>
    let actives := registry.filter (fun a => a.is_active)
    match fuzzyStrictPick (fun a => sim n a.agency_name_normalized) actives 0 with
    | (some a, s) => if s ≥ 9/10 then some (a, MatchType.FUZZY_MATCH s) else none
    | (none, _) => none

/-- Model of `DataCleaner.match_agency_to_gifmis` (src/app/data_cleaner.py:142-275).
A `None`/`NaN` (or empty) agency name returns `NO_AGENCY_NAME` before any
matching; otherwise the four steps run in priority order and `NO_MATCH`
closes the chain. -/
def matchAgency (sim : List ℕ → List ℕ → ℚ) (registry : List MinistryAgency)
    (agency_name agency_code ministry_code : Option (List ℕ)) :
    Option MinistryAgency × MatchType :=
  match agency_name with
  | none => (none, MatchType.NO_AGENCY_NAME)
  | some ns =>
    if ns = [] then (none, MatchType.NO_AGENCY_NAME)
    else
      let nn := normalize_text (some ns)
      match matchStepCode registry agency_code with
      | some r => (some r.1, r.2)
      | none =>
        match matchStepMinistry sim registry ministry_code nn with
        | some r => (some r.1, r.2)
        | none =>
          match matchStepGlobalName registry nn with
          | some r => (some r.1, r.2)
          | none =>
            match matchStepGlobalFuzzy sim registry nn with
            | some r => (some r.1, r.2)
            | none => (none, MatchType.NO_MATCH)

/-- Model of `ImprovedMinistryAgency.find_agency_by_name_improved`
(src/app/analytics.py:129-169): falsy name gives `None`; exact match
compares `upper(agency_name_normalized)` with the HQ-normalized search
text; the fuzzy fallback starts its best score at `threshold` and only a
strictly greater score is ever kept. -/
def findImproved (sim : List ℕ → List ℕ → ℚ) (registry : List MinistryAgency)
    (name : List ℕ) (threshold : ℚ) : Option MinistryAgency :=
  if name = [] then none
  else
    let nsearch := normalize_ministry_name name
    match registry.find? (fun a => pyUpper a.agency_name_normalized == nsearch && a.is_active) with
    | some a => some a
    | none =>
      let actives := registry.filter (fun a => a.is_active)
      (fuzzyStrictPick (fun a => sim nsearch (normalize_ministry_name a.agency_name))
        actives threshold).1

/-! ## Budget ingestion: duplicate aggregation -/

/-- Model of a cleaned budget DataFrame row as it reaches
`aggregate_duplicate_projects` (src/app/data_cleaner.py:331-369): text
columns stripped, codes normalized upstream, `appropriation` numeric. -/
structure RawRow where
  code : List ℕ
  project_name : Option (List ℕ)
  status_type : Option (List ℕ)
  appropriation : ℚ
  ministry : Option (List ℕ)
  agency : Option (List ℕ)
  agency_code : Option (List ℕ)
  ministry_code : Option (List ℕ)
deriving DecidableEq

/-- Model of `DataCleaner.generate_agency_key` (src/app/data_cleaner.py:75-86):
`"CODE_" + normalized code` when the code normalizes, else
`"NAME_" + normalized name` for a truthy non-NaN name that normalizes,
else `"UNKNOWN"`. -/
def generate_agency_key (agency_code agency_name : Option (List ℕ)) : List ℕ :=
  match normalize_agency_code agency_code with
  | some nc => [67, 79, 68, 69, 95] ++ nc
  | none =>
    match agency_name with
    | some an =>
      if an = [] then [85, 78, 75, 78, 79, 87, 78]
      else
        match normalize_text (some an) with
        | some n => [78, 65, 77, 69, 95] ++ n
        | none => [85, 78, 75, 78, 79, 87, 78]
    | none => [85, 78, 75, 78, 79, 87, 78]

/-- Grouping key of `aggregate_duplicate_projects`: the `(code, agency_key)`
pair of `df.groupby(['code', 'agency_key'])` (src/app/data_cleaner.py:96-107). -/
def rowKey (r : RawRow) : List ℕ × List ℕ :=
  (r.code, generate_agency_key r.agency_code r.agency)

/-- Lexicographic comparison of code-point lists, used to model the sorted
group iteration of pandas `groupby`. -/
def natListLe : List ℕ → List ℕ → Bool
  | [], _ => true
  | _ :: _, [] => false
  | x :: xs, y :: ys => if x < y then true else if y < x then false else natListLe xs ys

/-- Lexicographic comparison of `(code, agency_key)` pairs. -/
def keyLe (k1 k2 : List ℕ × List ℕ) : Bool :=
  if k1.1 = k2.1 then natListLe k1.2 k2.2 else natListLe k1.1 k2.1

/-- Insert into a sorted list (model of a stable sort). -/
def insSorted {α : Type} (le : α → α → Bool) (x : α) : List α → List α
  | [] => [x]
  | y :: ys => if le x y then x :: y :: ys else y :: insSorted le x ys

/-- Insertion sort by a Boolean comparison. -/
def sortByB {α : Type} (le : α → α → Bool) (l : List α) : List α :=
  l.foldr (insSorted le) []

/-- Aggregated output row of `aggregate_duplicate_projects`
(src/app/data_cleaner.py:111-123 minus the dropped `agency_key` and
`row_count` helper columns, src/app/data_cleaner.py:140). -/
structure AggRow where
  code : List ℕ
  project_name : Option (List ℕ)
  status_type : Option (List ℕ)
  appropriation : ℚ
  ministry : Option (List ℕ)
  agency : Option (List ℕ)
  agency_code : Option (List ℕ)
  ministry_code : Option (List ℕ)
deriving DecidableEq

/-- Record built for one `(code, agency_key)` group
(src/app/data_cleaner.py:112-123): appropriation summed over the group,
every descriptive column taken from the group's first row (`iloc[0]`; the
`pd.notna` guard on `agency_code`/`ministry_code` maps `NaN` to `None`,
which over `Option` is the first row's value unchanged). -/
def aggregateGroup (k : List ℕ × List ℕ) (grp : List RawRow) : AggRow :=
  { code := k.1
    project_name := grp.head?.bind (fun r => r.project_name)
    status_type := grp.head?.bind (fun r => r.status_type)
    appropriation := (grp.map (fun r => r.appropriation)).sum
    ministry := grp.head?.bind (fun r => r.ministry)
    agency := grp.head?.bind (fun r => r.agency)
    agency_code := grp.head?.bind (fun r => r.agency_code)
    ministry_code := grp.head?.bind (fun r => r.ministry_code) }

/-- Model of `DataCleaner.aggregate_duplicate_projects`
(src/app/data_cleaner.py:88-140): group rows by `(code, agency_key)`
(pandas iterates the groups in sorted key order, each group keeping the
original row order) and emit one aggregated record per group. -/
def aggregate_duplicate_projects (rows : List RawRow) : List AggRow :=
  let keys := sortByB keyLe ((rows.map rowKey).dedup)
  keys.map (fun k => aggregateGroup k (rows.filter (fun r => rowKey r = k)))

/-! ## Consolidation rules -/

/-- Model of `AgencyConsolidationRules.MINISTRY_HQ_CONSOLIDATION`
(src/app/analytics.py:62-66): the codes 255001001, 451001001, 521001001,
each mapped to itself. -/
def MINISTRY_HQ_CONSOLIDATION : List (List ℕ × List ℕ) :=
  [([50, 53, 53, 48, 48, 49, 48, 48, 49], [50, 53, 53, 48, 48, 49, 48, 48, 49]),
   ([52, 53, 49, 48, 48, 49, 48, 48, 49], [52, 53, 49, 48, 48, 49, 48, 48, 49]),
   ([53, 50, 49, 48, 48, 49, 48, 48, 49], [53, 50, 49, 48, 48, 49, 48, 48, 49])]

/-- Model of `AgencyConsolidationRules.AGENCY_NAME_CHANGES`
(src/app/analytics.py:69-75): code 451001001 renamed from
"FEDERAL MINISTRY OF NIGER DELTA DEVELOPMENT" to
"FEDERAL MINISTRY OF REGIONAL DEVELOPMENT" effective "2024-01-01". -/
def AGENCY_NAME_CHANGES : List (List ℕ × (List ℕ × List ℕ × List ℕ)) :=
  [([52, 53, 49, 48, 48, 49, 48, 48, 49],
    ([70, 69, 68, 69, 82, 65, 76, 32, 77, 73, 78, 73, 83, 84, 82, 89, 32, 79, 70, 32,
      78, 73, 71, 69, 82, 32, 68, 69, 76, 84, 65, 32, 68, 69, 86, 69, 76, 79, 80, 77,
      69, 78, 84],
     ([70, 69, 68, 69, 82, 65, 76, 32, 77, 73, 78, 73, 83, 84, 82, 89, 32, 79, 70, 32,
       82, 69, 71, 73, 79, 78, 65, 76, 32, 68, 69, 86, 69, 76, 79, 80, 77, 69, 78, 84],
      [50, 48, 50, 52, 45, 48, 49, 45, 48, 49])))]

/-- Model of `AgencyConsolidationRules.get_canonical_agency_code`
(src/app/analytics.py:82-85): dictionary lookup with the code itself as
default. -/
def get_canonical_agency_code (c : List ℕ) : List ℕ :=
  ((MINISTRY_HQ_CONSOLIDATION.find? (fun p => p.1 == c)).map (fun p => p.2)).getD c

/-- Model of `AgencyConsolidationRules.get_current_name`
(src/app/analytics.py:87-92): the post-rename name when the code underwent
a historical rename, else `None`. -/
def get_current_name (c : List ℕ) : Option (List ℕ) :=
  (AGENCY_NAME_CHANGES.find? (fun p => p.1 == c)).map (fun p => p.2.2.1)

/-- Model of `AgencyConsolidationRules.is_ministry_hq`
(src/app/analytics.py:112-123): true when a truthy code is a
consolidation-table key, or when any HQ suffix occurs inside the
upper-cased name. -/
def is_ministry_hq (agency_name : List ℕ) (agency_code : Option (List ℕ)) : Bool :=
  (match agency_code with
   | some c => !c.isEmpty && (MINISTRY_HQ_CONSOLIDATION.find? (fun p => p.1 == c)).isSome
   | none => false)
  || HQ_SUFFIXES.any (fun suf => occursIn suf (pyUpper agency_name))

/-! ## Persisted tables and the compliance aggregator -/

/-- Stored budget row (`BudgetProject2024`, src/app/models.py:219-254),
restricted to the two columns the compliance query projects
(src/app/analytics.py:552-558): ERGP `code` and nullable `agency_code`. -/
structure BudgetRowDB where
  code : List ℕ
  agency_code : Option (List ℕ)
deriving DecidableEq

/-- Stored survey response (`SurveyResponse`, src/app/models.py:5-98),
restricted to the columns the compliance and performance analytics read.
The attachment columns (`project_pictures`, `geolocations`,
`other_documents`) are read only for Python truthiness, modelled as
`Bool`; `created_at` is epoch seconds. -/
structure SurveyRow where
  id : ℕ
  ergp_code : Option (List ℕ)
  ministry_agency_id : Option ℕ
  has_submitted_report : Bool
  percentage_completed : Option ℤ
  has_pictures : Bool
  has_geolocations : Bool
  has_other_documents : Bool
  created_at : Option ℤ
deriving DecidableEq

/-- Database snapshot the analytics run over. -/
structure Dashboard where
  registry : List MinistryAgency
  budget : List BudgetRowDB
  responses : List SurveyRow
deriving DecidableEq

/-- Model of the survey-side join of `calculate_mda_compliance_data`
(src/app/analytics.py:573-584): every response joined to its active
registry entity through `ministry_agency_id`. -/
def surveyJoin (db : Dashboard) : List (MinistryAgency × SurveyRow) :=
  db.responses.filterMap (fun r =>
    r.ministry_agency_id.bind (fun i =>
      (db.registry.find? (fun a => a.id == i && a.is_active)).map (fun a => (a, r))))

/-- Model of the budget-side query of `calculate_mda_compliance_data`
(src/app/analytics.py:552-558): distinct `(agency_code, code)` pairs with
a non-null, non-empty agency code. -/
def budgetPairs (db : Dashboard) : List (List ℕ × List ℕ) :=
  (db.budget.filterMap (fun b =>
    match b.agency_code with
    | some ac => if ac = [] then none else some (ac, b.code)
    | none => none)).dedup

/-- Number of distinct ERGP codes budgeted under a canonical agency code
(src/app/analytics.py:561-570: the `canonical_budget_counts` sets and the
derived `budget_lookup`, with 0 as the `get` default of line 622). -/
def expectedCount (db : Dashboard) (c : List ℕ) : ℕ :=
  ((((budgetPairs db).filter (fun p => get_canonical_agency_code p.1 = c)).map
    (fun p => p.2)).dedup).length

/-- Number of distinct truthy ERGP codes reported under a canonical agency
code (src/app/analytics.py:586-598 and 631). -/
def reportedCount (db : Dashboard) (c : List ℕ) : ℕ :=
  ((((surveyJoin db).filter
      (fun t => get_canonical_agency_code t.1.agency_code = c)).filterMap
    (fun t => t.2.ergp_code.bind (fun e => if e = [] then none else some e))).dedup).length

/-- Number of survey submissions under a canonical agency code
(src/app/analytics.py:600 and 632). -/
def totalSubs (db : Dashboard) (c : List ℕ) : ℕ :=
  ((surveyJoin db).filter (fun t => get_canonical_agency_code t.1.agency_code = c)).length

/-- Model of `all_canonical_codes` (src/app/analytics.py:611): the union of
the canonical codes seen in the budget grouping and the survey grouping
(a set in the source; here a deduplicated list). -/
def allCanonicalCodes (db : Dashboard) : List (List ℕ) :=
  (((budgetPairs db).map (fun p => get_canonical_agency_code p.1)) ++
    ((surveyJoin db).map (fun t => get_canonical_agency_code t.1.agency_code))).dedup

/-- Compliance output record (src/app/analytics.py:643-657). -/
structure ComplianceRecord where
  mda_name : List ℕ
  agency_code : List ℕ
  parent_ministry : List ℕ
  expected_projects : ℕ
  reported_projects : ℕ
  total_submissions : ℕ
  compliance_rate_pct : ℚ
  avg_submissions_per_project : ℚ
  has_budget : Bool
  has_survey : Bool
  is_ministry_hq : Bool
deriving DecidableEq

/-- Record built for one canonical code by the loop of
`calculate_mda_compliance_data` (src/app/analytics.py:613-657): `None`
(and hence a skipped code) when no active registry entity carries the
code; `compliance_rate = min(100, reported/expected*100)` when
`expected > 0`, else `0` (lines 639-641). -/
def mkComplianceRecord (db : Dashboard) (c : List ℕ) : Option ComplianceRecord :=
  (db.registry.find? (fun a => a.agency_code == c && a.is_active)).map (fun agency =>
    let expected := expectedCount db c
    let reported := reportedCount db c
    let total_subs := totalSubs db c
    let display_name := (get_current_name c).getD agency.agency_name
    { mda_name := display_name
      agency_code := c
      parent_ministry := agency.ministry_name
      expected_projects := expected
      reported_projects := reported
      total_submissions := total_subs
      compliance_rate_pct :=
        if 0 < expected then min 100 ((reported : ℚ) / (expected : ℚ) * 100) else 0
      avg_submissions_per_project :=
        if 0 < reported then (total_subs : ℚ) / (reported : ℚ) else 0
      has_budget := decide (0 < expected)
      has_survey := decide (0 < reported ∨ 0 < total_subs)
      is_ministry_hq := is_ministry_hq display_name (some c) })

/-- Final sort of the compliance output by `(parent_ministry, mda_name)`
(src/app/analytics.py:659). -/
def complianceLe (r1 r2 : ComplianceRecord) : Bool :=
  keyLe (r1.parent_ministry, r1.mda_name) (r2.parent_ministry, r2.mda_name)

/-- Model of `PerformanceAnalytics.calculate_mda_compliance_data`
(src/app/analytics.py:546-661). -/
def calculate_mda_compliance_data (db : Dashboard) : List ComplianceRecord :=
  sortByB complianceLe ((allCanonicalCodes db).filterMap (mkComplianceRecord db))

/-- Ministry-level rollup record (src/app/analytics.py:689-697). -/
structure MinistryRecord where
  ministry_name : List ℕ
  mda_count : ℕ
  expected_projects : ℕ
  reported_projects : ℕ
  total_responses : ℕ
  avg_completion : ℚ
  total_budget : ℚ
deriving DecidableEq

/-- Model of the aggregation loop of `calculate_ministry_compliance_data`
(src/app/analytics.py:663-699) over an already-computed MDA list: sum
expected/reported/submissions per ministry and report the volume-weighted
rate `reported/expected*100` (0 when nothing is expected); output sorted
by ministry name. -/
def ministryRollup (mda_data : List ComplianceRecord) : List MinistryRecord :=
  let ministries := (mda_data.map (fun r => r.parent_ministry)).dedup
  sortByB (fun a b => natListLe a.ministry_name b.ministry_name)
    (ministries.map (fun m =>
      let grp := mda_data.filter (fun r => r.parent_ministry == m)
      let expected := (grp.map (fun r => r.expected_projects)).sum
      let reported := (grp.map (fun r => r.reported_projects)).sum
      { ministry_name := m
        mda_count := grp.length
        expected_projects := expected
        reported_projects := reported
        total_responses := (grp.map (fun r => r.total_submissions)).sum
        avg_completion :=
          if 0 < expected then (reported : ℚ) / (expected : ℚ) * 100 else 0
        total_budget := 0 }))

/-- Model of `PerformanceAnalytics.calculate_ministry_compliance_data`
(src/app/analytics.py:663-699), which recomputes the MDA data and rolls it
up. -/
def calculate_ministry_compliance_data (db : Dashboard) : List MinistryRecord :=
  ministryRollup (calculate_mda_compliance_data db)

/-! ## Performance table -/

/-- Row of `mda_performance_table` (src/app/analytics.py:823-837). -/
structure PerfRow where
  parent_ministry : List ℕ
  mda_name : List ℕ
  agency_code : List ℕ
  expected_projects : ℕ
  reported_projects : ℕ
  total_responses : ℕ
  compliance_rate_pct : ℚ
  submission_rate_pct : ℚ
  avg_completion_pct : ℚ
  evidence_rate_proxy_pct : ℚ
  latest_response_at : Option ℤ
  days_since_last_response : Option ℤ
  performance_index : ℚ
deriving DecidableEq

/-- Recency step function of `mda_performance_table`
(src/app/analytics.py:806-812): 10 within 3 days, 7 within 7, 4 within 14,
else 0. -/
def recencyScore10 (days : ℤ) : ℚ :=
  if days ≤ 3 then 10 else if days ≤ 7 then 7 else if days ≤ 14 then 4 else 0

/-- Python `max(iterable, default=None)` over integers. -/
def listMaxZ (l : List ℤ) : Option ℤ :=
  l.foldl (fun st x =>
    match st with
    | none => some x
    | some m => some (max m x)) none

/-- Row built for one compliance record by the loop of
`mda_performance_table` (src/app/analytics.py:759-837): the registry
lookup of line 763 carries no `is_active` filter; responses are fetched by
`ministry_agency_id`; the completion average keeps only truthy (non-null,
non-zero) percentages; `days_since` is the floor of the elapsed seconds
over 86400; `performance_index` is set to the compliance rate (line 821 -
the recency step value of lines 804-812 is computed but not blended in). -/
def mkPerfRow (db : Dashboard) (now : ℤ) (mda : ComplianceRecord) : Option PerfRow :=
  (db.registry.find? (fun a => a.agency_code == mda.agency_code)).map (fun agency =>
    let responses := db.responses.filter (fun r => r.ministry_agency_id == some agency.id)
    let total := responses.length
    let submitted := (responses.filter (fun r => r.has_submitted_report)).length
    let completion_scores := responses.filterMap (fun r =>
      r.percentage_completed.bind (fun p => if p = 0 then none else some p))
    let avg_completion : ℚ :=
      if completion_scores = [] then 0
      else ((completion_scores.map (fun p => (p : ℚ))).sum) / (completion_scores.length : ℚ)
    let evidence_hits :=
      (responses.filter (fun r => r.has_pictures)).length +
      (responses.filter (fun r => r.has_geolocations)).length +
      (responses.filter (fun r => r.has_other_documents)).length
    let evidence_rate : ℚ :=
      if 0 < total then (evidence_hits : ℚ) / (total : ℚ) * 100 else 0
    let latest := listMaxZ (responses.filterMap (fun r => r.created_at))
    let days := latest.map (fun t => Int.fdiv (now - t) 86400)
    let submission_rate : ℚ :=
      if 0 < total then (submitted : ℚ) / (total : ℚ) * 100 else 0
    { parent_ministry := mda.parent_ministry
      mda_name := mda.mda_name
      agency_code := mda.agency_code
      expected_projects := mda.expected_projects
      reported_projects := mda.reported_projects
      total_responses := total
      compliance_rate_pct := mda.compliance_rate_pct
      submission_rate_pct := submission_rate
      avg_completion_pct := avg_completion
      evidence_rate_proxy_pct := evidence_rate
      latest_response_at := latest
      days_since_last_response := days
      performance_index := mda.compliance_rate_pct })

/-- Model of `PerformanceAnalytics.mda_performance_table`
(src/app/analytics.py:748-839): the compliance records enriched with
per-agency survey metrics; a record whose code has no registry row at all
is skipped (line 765-766). -/
def mda_performance_table (db : Dashboard) (now : ℤ) : List PerfRow :=
  (calculate_mda_compliance_data db).filterMap (mkPerfRow db now)

/-- Modelled from the spec (section 4.6 step 6): the recency score of a row,
10/7/4/0 by the age of the last response, 0 when there is none. -/
def specRecencyScore (days : Option ℤ) : ℚ :=
  match days with
  | none => 0
  | some d => recencyScore10 d

/-- Modelled from the spec (section 4.6 step 6): the claimed performance
index, `40% compliance + 20% submission rate + 20% average completion +
10% evidence proxy + 10% recency score scaled by 10`, computed from the
signals the performance row itself reports. -/
def specPerformanceIndex (r : PerfRow) : ℚ :=
  (2 : ℚ)/5 * r.compliance_rate_pct + 1/5 * r.submission_rate_pct +
    1/5 * r.avg_completion_pct + 1/10 * r.evidence_rate_proxy_pct +
    1/10 * (10 * specRecencyScore r.days_since_last_response)

/-! ## Ingestion transaction model -/

/-- Outcome of one `ingest_and_normalize_budget_data` run
(src/app/data_cleaner.py:277-548): success, a failure raised before the
delete of line 494 is committed (file missing at 539, column validation at
325, any processing error), or a failure at the final commit of line 515. -/
inductive IngestOutcome where
  | success
  | failBeforeDelete
  | failAtFinalCommit
deriving DecidableEq

/-- Session state of the budget store during ingestion: the rows the
database has committed, and the staged table content of the open
transaction. -/
structure PersistState (α : Type) where
  committed : List α
  pending : List α
deriving DecidableEq

/-- Model of `db.session.commit()`: the staged content becomes durable. -/
def commitSession {α : Type} (s : PersistState α) : PersistState α :=
  { committed := s.pending, pending := s.pending }

/-- Model of `db.session.rollback()`: staged changes are discarded, the
committed content stands. -/
def rollbackSession {α : Type} (s : PersistState α) : PersistState α :=
  { s with pending := s.committed }

/-- Model of `BudgetProject2024.query.delete()` (src/app/data_cleaner.py:494). -/
def deleteAllRows {α : Type} (s : PersistState α) : PersistState α :=
  { s with pending := [] }

/-- Model of `db.session.add(record)` (src/app/data_cleaner.py:507). -/
def addRecord {α : Type} (s : PersistState α) (r : α) : PersistState α :=
  { s with pending := s.pending ++ [r] }

/-- Transactional skeleton of `ingest_and_normalize_budget_data`
(src/app/data_cleaner.py:490-548): the existing rows are deleted and that
delete is committed at once (lines 494-495); the new records are then
staged one by one, a record whose construction raises being skipped
(lines 500-513, modelled by `insertOk`); the final commit of line 515
either succeeds or raises into the handler of lines 543-548, which rolls
back the still-open transaction. A failure before the delete (e.g. the
`FileNotFoundError` path of lines 539-542) also rolls back, with nothing
yet written. Returns the resulting session state and the success flag. -/
def runIngest {α : Type} (initial newRecs : List α) (insertOk : α → Bool) :
    IngestOutcome → PersistState α × Bool
  | IngestOutcome.failBeforeDelete =>
    (rollbackSession { committed := initial, pending := initial }, false)
  | IngestOutcome.failAtFinalCommit =>
    let s1 := commitSession (deleteAllRows { committed := initial, pending := initial })
    let s2 := (newRecs.filter insertOk).foldl addRecord s1
    (rollbackSession s2, false)
  | IngestOutcome.success =>
    let s1 := commitSession (deleteAllRows { committed := initial, pending := initial })
    let s2 := (newRecs.filter insertOk).foldl addRecord s1
    (commitSession s2, true)

/-! ## Concrete fixtures -/

/-- Registry entity used by the concrete compliance and performance runs. -/
def agFix : MinistryAgency :=
  { id := 1
    ministry_code := [49]
    agency_code := [49]
    agency_name := [65]
    ministry_name := [77]
    agency_name_normalized := [65]
    is_self_accounting := false
    is_parastatal := false
    is_active := true }

/-- Survey response reporting project `P` for `agFix`, with no submitted
report, no completion percentage, no evidence and an old timestamp. -/
def respFix : SurveyRow :=
  { id := 1
    ergp_code := some [80]
    ministry_agency_id := some 1
    has_submitted_report := false
    percentage_completed := none
    has_pictures := false
    has_geolocations := false
    has_other_documents := false
    created_at := some 0 }

/-- Snapshot with one budgeted project `P` under `agFix` and one survey
response reporting it. -/
def dbPerf : Dashboard :=
  { registry := [agFix]
    budget := [{ code := [80], agency_code := some [49] }]
    responses := [respFix] }

/-- Fallback performance row for a total `head` extraction. -/
def perfFallback : PerfRow :=
  { parent_ministry := []
    mda_name := []
    agency_code := []
    expected_projects := 0
    reported_projects := 0
    total_responses := 0
    compliance_rate_pct := 0
    submission_rate_pct := 0
    avg_completion_pct := 0
    evidence_rate_proxy_pct := 0
    latest_response_at := none
    days_since_last_response := none
    performance_index := 0 }

/-- First (only) row of the performance table over `dbPerf` at time
10000000. -/
def rowPerf : PerfRow := ((mda_performance_table dbPerf 10000000).head?).getD perfFallback

/-- Snapshot whose only budget row carries agency code `999`, a code with
no registry entity at all. -/
def dbOrphan : Dashboard :=
  { registry := []
    budget := [{ code := [80], agency_code := some [57, 57, 57] }]
    responses := [] }

/-- Snapshot with a budgeted entity that never answered a survey. -/
def dbBudgetOnly : Dashboard :=
  { registry := [agFix]
    budget := [{ code := [80], agency_code := some [49] }]
    responses := [] }

/-- Survey responses reporting five distinct projects for `agFix`. -/
def respsFive : List SurveyRow :=
  [{ respFix with id := 1, ergp_code := some [69, 49] },
   { respFix with id := 2, ergp_code := some [69, 50] },
   { respFix with id := 3, ergp_code := some [69, 51] },
   { respFix with id := 4, ergp_code := some [69, 52] },
   { respFix with id := 5, ergp_code := some [69, 53] }]

/-- Snapshot with two budgeted projects and five distinct reported codes
for the same entity (over-reporting). -/
def dbOverReport : Dashboard :=
  { registry := [agFix]
    budget := [{ code := [69, 49], agency_code := some [49] },
               { code := [69, 50], agency_code := some [49] }]
    responses := respsFive }

/-- Base raw budget row for the aggregation examples. -/
def rowBase : RawRow :=
  { code := [67]
    project_name := none
    status_type := none
    appropriation := 100
    ministry := none
    agency := none
    agency_code := some [49]
    ministry_code := none }

/-- Two raw rows sharing a `(code, agency_code)` key whose first
`project_name` is null and second is `"X"`. -/
def rowsNullFirst : List RawRow :=
  [rowBase, { rowBase with appropriation := 200, project_name := some [88] }]

/-- Modelled from the spec (section 4.5 step 4): the first non-null value
of a column, the spec's claimed semantics for descriptive fields. -/
def specFirstNonNull {α : Type} (l : List (Option α)) : Option α :=
  l.findSome? id

/-- Three raw rows sharing one `(code, agency_code)` key with
appropriations 100, 200 and 50. -/
def rowsTriple : List RawRow :=
  [rowBase, { rowBase with appropriation := 200 }, { rowBase with appropriation := 50 }]

/-- Compliance record with 10 expected and 10 reported projects. -/
def crTen : ComplianceRecord :=
  { mda_name := [65]
    agency_code := [49]
    parent_ministry := [77]
    expected_projects := 10
    reported_projects := 10
    total_submissions := 10
    compliance_rate_pct := 100
    avg_submissions_per_project := 1
    has_budget := true
    has_survey := true
    is_ministry_hq := false }

/-- Compliance record in the same ministry with 90 expected and 0 reported. -/
def crNinety : ComplianceRecord :=
  { crTen with
    mda_name := [66]
    agency_code := [50]
    expected_projects := 90
    reported_projects := 0
    total_submissions := 0
    compliance_rate_pct := 0
    avg_submissions_per_project := 0
    has_survey := false }

/-- Constant similarity oracle returning exactly 0.90 (a value
`SequenceMatcher.ratio` attains, e.g. 9 matched characters over total
length 20). -/
def simNine (_a _b : List ℕ) : ℚ := 9/10

/-- Registry candidate whose normalized name differs from the searched
text, so only the fuzzy phase can match it. -/
def agOther : MinistryAgency :=
  { agFix with id := 2, agency_code := [50], agency_name := [66], agency_name_normalized := [66] }

/-! ## Helper lemmas: insertion sort -/

theorem mem_insSorted {α : Type} (le : α → α → Bool) (x y : α) (l : List α) :
    y ∈ insSorted le x l ↔ y = x ∨ y ∈ l := by
  induction l with
  | nil => simp [insSorted]
  | cons z zs ih =>
    unfold insSorted
    by_cases h : le x z = true
    · simp [h]
    · simp only [if_neg h, List.mem_cons, ih]
      tauto

theorem mem_sortByB {α : Type} (le : α → α → Bool) (y : α) (l : List α) :
    y ∈ sortByB le l ↔ y ∈ l := by
  induction l with
  | nil => simp [sortByB]
  | cons z zs ih =>
    unfold sortByB at ih ⊢
    simp only [List.foldr_cons, mem_insSorted, ih, List.mem_cons]

theorem length_insSorted {α : Type} (le : α → α → Bool) (x : α) (l : List α) :
    (insSorted le x l).length = l.length + 1 := by
  induction l with
  | nil => rfl
  | cons z zs ih =>
    unfold insSorted
    by_cases h : le x z = true
    · simp [h]
    · simp [if_neg h, ih]

theorem length_sortByB {α : Type} (le : α → α → Bool) (l : List α) :
    (sortByB le l).length = l.length := by
  induction l with
  | nil => rfl
  | cons z zs ih =>
    unfold sortByB at ih ⊢
    simp [List.foldr_cons, length_insSorted, ih]

theorem countP_insSorted {α : Type} (le : α → α → Bool) (p : α → Bool) (x : α)
    (l : List α) :
    (insSorted le x l).countP p = (l.countP p) + (if p x then 1 else 0) := by
  induction l with
  | nil => simp [insSorted, List.countP_cons]
  | cons z zs ih =>
    unfold insSorted
    by_cases h : le x z = true
    · by_cases hx : p x <;> by_cases hz : p z <;>
        simp [h, hx, hz, List.countP_cons]
    · by_cases hx : p x <;> by_cases hz : p z <;>
        simp [if_neg h, hx, hz, List.countP_cons, ih]

theorem countP_sortByB {α : Type} (le : α → α → Bool) (p : α → Bool) (l : List α) :
    (sortByB le l).countP p = l.countP p := by
  induction l with
  | nil => rfl
  | cons z zs ih =>
    unfold sortByB at ih ⊢
    simp only [List.foldr_cons, countP_insSorted, ih, List.countP_cons]

/-! ## Claim C10 -/

/-- Claim C10: for every agency code and ministry code input, a null or NaN
agency name makes `match_agency_to_gifmis` return no match with provenance
`NO_AGENCY_NAME` before any matching step, even when the supplied code
equals an active registry entity's code (the similarity oracle, registry
and codes are universally quantified, so no matching step can influence
the result). -/
theorem C10_no_agency_name_short_circuit :
    ∀ (sim : List ℕ → List ℕ → ℚ) (registry : List MinistryAgency)
      (code mcode : Option (List ℕ)),
      matchAgency sim registry none code mcode = (none, MatchType.NO_AGENCY_NAME) :=
  fun _ _ _ _ => rfl

/-! ## Claim C6 -/

/-- Claim C6: whenever the supplied (non-empty) name passes the guard and
the raw agency code normalizes to the code of an active registry entity
(the first active entity found under that code), `match_agency_to_gifmis`
returns that entity with provenance `EXACT_AGENCY_CODE_MATCH` — for every
similarity oracle, registry, ministry code and however dissimilar the name
text is, so no later matching step is consulted. -/
theorem C6_exact_code_short_circuit :
    ∀ (sim : List ℕ → List ℕ → ℚ) (registry : List MinistryAgency)
      (ns c nc : List ℕ) (mcode : Option (List ℕ)) (a : MinistryAgency),
      ns ≠ [] →
      normalize_agency_code (some c) = some nc →
      registry.find? (fun x => x.agency_code == nc && x.is_active) = some a →
      matchAgency sim registry (some ns) (some c) mcode =
        (some a, MatchType.EXACT_AGENCY_CODE_MATCH) := by
  intro sim registry ns c nc mcode a hns hnc hfind
  have hc : ¬c = [] := by
    intro h
    subst h
    simp [normalize_agency_code, pyStrip, dropDotZero, endsWithSeg, leadMatch] at hnc
  unfold matchAgency matchStepCode
  simp [hns, hc, hnc, hfind]

/-- Witness for C6: the code `"01"` normalizes to `agFix`'s code `"1"`, and a
completely dissimilar name `"Z"` still yields the exact-code match. -/
theorem C6_exact_code_witness :
    matchAgency simNine [agFix] (some [90]) (some [48, 49]) none =
      (some agFix, MatchType.EXACT_AGENCY_CODE_MATCH) :=
  C6_exact_code_short_circuit simNine [agFix] [90] [48, 49] [49] none agFix
    (by decide) (by decide) (by decide)

/-! ## Claim C2 -/

/-- Lemma: staging records never changes what is committed. -/
theorem foldl_addRecord_committed {α : Type} (l : List α) (s : PersistState α) :
    (l.foldl addRecord s).committed = s.committed := by
  induction l generalizing s with
  | nil => rfl
  | cons x xs ih => simp [List.foldl_cons, ih, addRecord]

/-- Lemma: staging records appends them to the pending table content. -/
theorem foldl_addRecord_pending {α : Type} (l : List α) (s : PersistState α) :
    (l.foldl addRecord s).pending = s.pending ++ l := by
  induction l generalizing s with
  | nil => simp
  | cons x xs ih => simp [List.foldl_cons, ih, addRecord]

/-- Claim C2 (amended): only a failure raised before the delete-commit of
lines 494-495 leaves the budget store unchanged. The delete of the
previous records is committed before the insert transaction, so a failure
at the final commit leaves the store empty — the old records gone, the new
ones absent — and the rollback of the exception handler only discards the
staged inserts. On success the store holds exactly the constructible new
records. -/
theorem C2_ingest_rollback_characterization :
    ∀ {α : Type} (initial newRecs : List α) (f : α → Bool),
      ((runIngest initial newRecs f IngestOutcome.failBeforeDelete).1.committed = initial ∧
        (runIngest initial newRecs f IngestOutcome.failBeforeDelete).2 = false) ∧
      ((runIngest initial newRecs f IngestOutcome.failAtFinalCommit).1.committed = [] ∧
        (runIngest initial newRecs f IngestOutcome.failAtFinalCommit).2 = false) ∧
      ((runIngest initial newRecs f IngestOutcome.success).1.committed =
          newRecs.filter f ∧
        (runIngest initial newRecs f IngestOutcome.success).2 = true) := by
  intro α initial newRecs f
  refine ⟨⟨rfl, rfl⟩, ⟨?_, rfl⟩, ⟨?_, rfl⟩⟩
  · show (rollbackSession ((newRecs.filter f).foldl addRecord
      (commitSession (deleteAllRows { committed := initial, pending := initial })))).committed = []
    simp [rollbackSession, foldl_addRecord_committed, commitSession, deleteAllRows]
  · show (commitSession ((newRecs.filter f).foldl addRecord
      (commitSession (deleteAllRows { committed := initial, pending := initial })))).committed =
      newRecs.filter f
    simp [commitSession, foldl_addRecord_pending, deleteAllRows]

/-- Counterexample for C2 as stated: with one stored record, a run whose
bulk-insert commit fails ends with the budget store empty — the previously
stored record was deleted although the new records were never successfully
inserted, so the run was not all-or-nothing. -/
theorem C2_delete_committed_counterexample :
    (runIngest ([0] : List ℕ) [1] (fun _ => true) IngestOutcome.failAtFinalCommit).1.committed
        = [] ∧
      (runIngest ([0] : List ℕ) [1] (fun _ => true) IngestOutcome.failAtFinalCommit).2
        = false ∧
      ([] : List ℕ) ≠ [0] := by
  refine ⟨?_, rfl, by decide⟩
  simp [runIngest, rollbackSession, commitSession, deleteAllRows, addRecord]

/-! ## Claim C5 -/

/-- Lemma: once the scoped fuzzy loop holds a best match it never returns to
`None`. -/
theorem scopedFold_some (f : MinistryAgency → ℚ) (l : List MinistryAgency) :
    ∀ st : Option MinistryAgency × ℚ, st.1.isSome →
      ((l.foldl (scopedStep f) st).1).isSome := by
  induction l with
  | nil => intro st h; exact h
  | cons a l ih =>
    intro st h
    simp only [List.foldl_cons]
    apply ih
    unfold scopedStep
    split_ifs <;> simp [h]

/-- Lemma: started empty at best score 0, the scoped fuzzy loop ends with a
match exactly when some candidate scores at least 0.85. -/
theorem scopedFold_isSome_iff (f : MinistryAgency → ℚ) (l : List MinistryAgency) :
    ∀ st : Option MinistryAgency × ℚ, st.1 = none → st.2 = 0 →
      (((l.foldl (scopedStep f) st).1).isSome ↔ ∃ a ∈ l, f a ≥ 17/20) := by
  induction l with
  | nil => intro st h1 _; simp [h1]
  | cons a l ih =>
    intro st h1 h2
    simp only [List.foldl_cons]
    by_cases hc : f a > st.2 ∧ f a ≥ 17/20
    · rw [show scopedStep f st a = (some a, f a) from by unfold scopedStep; rw [if_pos hc]]
      constructor
      · intro _
        exact ⟨a, List.mem_cons_self a l, hc.2⟩
      · intro _
        exact scopedFold_some f l (some a, f a) rfl
    · rw [show scopedStep f st a = st from by unfold scopedStep; rw [if_neg hc]]
      rw [ih st h1 h2]
      have ha : ¬ f a ≥ 17/20 := by
        intro hge
        exact hc ⟨by rw [h2]; linarith, hge⟩
      constructor
      · rintro ⟨b, hb, hfb⟩
        exact ⟨b, List.mem_cons_of_mem a hb, hfb⟩
      · rintro ⟨b, hb, hfb⟩
        rcases List.mem_cons.mp hb with rfl | hb'
        · exact absurd hfb ha
        · exact ⟨b, hb', hfb⟩

/-- Lemma: once the strict best-score loop holds a match it keeps one. -/
theorem strictFold_some (f : MinistryAgency → ℚ) (l : List MinistryAgency) :
    ∀ st : Option MinistryAgency × ℚ, st.1.isSome →
      ((l.foldl (strictStep f) st).1).isSome := by
  induction l with
  | nil => intro st h; exact h
  | cons a l ih =>
    intro st h
    simp only [List.foldl_cons]
    apply ih
    unfold strictStep
    split_ifs <;> simp [h]

/-- Lemma: started empty, the strict best-score loop ends with a match
exactly when some candidate scores strictly above the initial best score. -/
theorem strictFold_isSome_iff (f : MinistryAgency → ℚ) (l : List MinistryAgency) :
    ∀ st : Option MinistryAgency × ℚ, st.1 = none →
      (((l.foldl (strictStep f) st).1).isSome ↔ ∃ a ∈ l, f a > st.2) := by
  induction l with
  | nil => intro st h1; simp [h1]
  | cons a l ih =>
    intro st h1
    simp only [List.foldl_cons]
    by_cases hc : f a > st.2
    · rw [show strictStep f st a = (some a, f a) from by unfold strictStep; rw [if_pos hc]]
      constructor
      · intro _
        exact ⟨a, List.mem_cons_self a l, hc⟩
      · intro _
        exact strictFold_some f l (some a, f a) rfl
    · rw [show strictStep f st a = st from by unfold strictStep; rw [if_neg hc]]
      rw [ih st h1]
      constructor
      · rintro ⟨b, hb, hfb⟩
        exact ⟨b, List.mem_cons_of_mem a hb, hfb⟩
      · rintro ⟨b, hb, hfb⟩
        rcases List.mem_cons.mp hb with rfl | hb'
        · exact absurd hfb hc
        · exact ⟨b, hb', hfb⟩

/-- Lemma: the strict loop's best score never decreases. -/
theorem strictFold_snd_mono (f : MinistryAgency → ℚ) (l : List MinistryAgency) :
    ∀ st : Option MinistryAgency × ℚ, st.2 ≤ (l.foldl (strictStep f) st).2 := by
  induction l with
  | nil => intro st; exact le_refl _
  | cons a l ih =>
    intro st
    simp only [List.foldl_cons]
    refine le_trans ?_ (ih (strictStep f st a))
    unfold strictStep
    split_ifs with h
    · exact le_of_lt h
    · exact le_refl _

/-- Lemma: the strict loop's final best score bounds every candidate score. -/
theorem strictFold_snd_ub (f : MinistryAgency → ℚ) (l : List MinistryAgency) :
    ∀ st : Option MinistryAgency × ℚ, ∀ a ∈ l, f a ≤ (l.foldl (strictStep f) st).2 := by
  induction l with
  | nil => intro st a ha; cases ha
  | cons b l ih =>
    intro st a ha
    simp only [List.foldl_cons]
    rcases List.mem_cons.mp ha with h | ha'
    · refine le_trans ?_ (strictFold_snd_mono f l (strictStep f st b))
      rw [h]
      unfold strictStep
      split_ifs with hc
      · exact le_refl _
      · exact le_of_not_lt hc
    · exact ih (strictStep f st b) a ha'

/-- Lemma: the strict loop's final best score is the initial score or some
candidate's score. -/
theorem strictFold_snd_cases (f : MinistryAgency → ℚ) (l : List MinistryAgency) :
    ∀ st : Option MinistryAgency × ℚ,
      (l.foldl (strictStep f) st).2 = st.2 ∨
        ∃ a ∈ l, (l.foldl (strictStep f) st).2 = f a := by
  induction l with
  | nil => intro st; exact Or.inl rfl
  | cons a l ih =>
    intro st
    simp only [List.foldl_cons]
    by_cases hc : f a > st.2
    · rw [show strictStep f st a = (some a, f a) from by unfold strictStep; rw [if_pos hc]]
      rcases ih (some a, f a) with h | ⟨b, hb, hfb⟩
      · exact Or.inr ⟨a, List.mem_cons_self a l, h⟩
      · exact Or.inr ⟨b, List.mem_cons_of_mem a hb, hfb⟩
    · rw [show strictStep f st a = st from by unfold strictStep; rw [if_neg hc]]
      rcases ih st with h | ⟨b, hb, hfb⟩
      · exact Or.inl h
      · exact Or.inr ⟨b, List.mem_cons_of_mem a hb, hfb⟩

/-- Lemma: the accept test after the strict loop of the global fuzzy step
succeeds exactly when some candidate scores at least 0.90. -/
theorem strictPick_accept_iff (f : MinistryAgency → ℚ) (l : List MinistryAgency) :
    ((match fuzzyStrictPick f l 0 with
      | (some a, s) => if s ≥ 9/10 then some (a, MatchType.FUZZY_MATCH s) else none
      | (none, _) => none) : Option (MinistryAgency × MatchType)).isSome ↔
      ∃ a ∈ l, f a ≥ 9/10 := by
  cases hres : fuzzyStrictPick f l 0 with
  | mk ob bs =>
    cases ob with
    | none =>
      simp only [Option.isSome_none, Bool.false_eq_true, false_iff]
      rintro ⟨a, ha, hfa⟩
      have hs : (fuzzyStrictPick f l 0).1.isSome := by
        rw [show fuzzyStrictPick f l 0 =
          l.foldl (strictStep f) ((none : Option MinistryAgency), (0 : ℚ)) from rfl,
          strictFold_isSome_iff f l ((none : Option MinistryAgency), (0 : ℚ)) rfl]
        exact ⟨a, ha, lt_of_lt_of_le (by norm_num) hfa⟩
      rw [hres] at hs
      simp at hs
    | some a =>
      by_cases hbs : bs ≥ 9/10
      · simp only [if_pos hbs, Option.isSome_some, true_iff]
        have hcases := strictFold_snd_cases f l ((none : Option MinistryAgency), (0 : ℚ))
        rw [show l.foldl (strictStep f) ((none : Option MinistryAgency), (0 : ℚ)) =
          fuzzyStrictPick f l 0 from rfl, hres] at hcases
        rcases hcases with h0 | ⟨b, hb, hfb⟩
        · simp only at h0
          rw [h0] at hbs
          norm_num at hbs
        · simp only at hfb
          exact ⟨b, hb, by rw [← hfb]; exact hbs⟩
      · simp only [if_neg hbs, Option.isSome_none, Bool.false_eq_true, false_iff]
        rintro ⟨a', ha', hfa'⟩
        have hub : f a' ≤ (fuzzyStrictPick f l 0).2 :=
          strictFold_snd_ub f l ((none : Option MinistryAgency), (0 : ℚ)) a' ha'
        rw [hres] at hub
        exact hbs (le_trans hfa' hub)

/-- Lemma: the global fuzzy step of `match_agency_to_gifmis` fires exactly
when some active entity scores at least 0.90. -/
theorem globalFuzzy_isSome_iff (sim : List ℕ → List ℕ → ℚ)
    (registry : List MinistryAgency) (n : List ℕ) :
    (matchStepGlobalFuzzy sim registry (some n)).isSome ↔
      ∃ a ∈ registry.filter (fun x => x.is_active),
        sim n a.agency_name_normalized ≥ 9/10 :=
  strictPick_accept_iff (fun a => sim n a.agency_name_normalized)
    (registry.filter (fun x => x.is_active))

/-- Claim C5 (amended): the loops of `DataCleaner.match_agency_to_gifmis`
accept a best candidate at exactly the documented thresholds — the scoped
fuzzy loop succeeds exactly when some in-ministry candidate scores at
least 0.85 (so 0.85 is accepted and 0.849 rejected), and the global fuzzy
step exactly when some active candidate scores at least 0.90 (so 0.90 is
accepted and 0.899 rejected) — but the fuzzy loop of
`ImprovedMinistryAgency.find_agency_by_name_improved` keeps only scores
strictly above its threshold, so there a best candidate at exactly the
0.90 threshold is rejected. -/
theorem C5_threshold_boundaries :
    (∀ (f : MinistryAgency → ℚ) (l : List MinistryAgency),
        ((fuzzyScopedPick f l).1).isSome ↔ ∃ a ∈ l, f a ≥ 17/20) ∧
      (∀ (sim : List ℕ → List ℕ → ℚ) (registry : List MinistryAgency) (n : List ℕ),
        (matchStepGlobalFuzzy sim registry (some n)).isSome ↔
          ∃ a ∈ registry.filter (fun x => x.is_active),
            sim n a.agency_name_normalized ≥ 9/10) ∧
      (∀ (f : MinistryAgency → ℚ) (l : List MinistryAgency) (t : ℚ),
        ((fuzzyStrictPick f l t).1).isSome ↔ ∃ a ∈ l, f a > t) := by
  refine ⟨?_, globalFuzzy_isSome_iff, ?_⟩
  · intro f l
    exact scopedFold_isSome_iff f l ((none : Option MinistryAgency), (0 : ℚ)) rfl rfl
  · intro f l t
    exact strictFold_isSome_iff f l ((none : Option MinistryAgency), (t : ℚ)) rfl

unseal Rat.mul Rat.add Rat.inv Rat.sub in
/-- Counterexample for C5 as stated: `find_agency_by_name_improved` is a
global fuzzy code path, yet with every similarity equal to exactly 0.90
(and the exact-name phase failing) it returns no match — a best candidate
at similarity exactly 0.90 is rejected there. -/
theorem C5_exact_ninety_rejected :
    findImproved simNine [agOther] [65] (9/10) = none ∧
      simNine (normalize_ministry_name [65]) (normalize_ministry_name agOther.agency_name) =
        9/10 := by
  exact ⟨by decide, by decide⟩

/-! ## Claim C7 -/

unseal Rat.mul Rat.add Rat.inv Rat.sub in
/-- Claim C7 (amended): `aggregate_duplicate_projects` groups rows by
`(project code, entity key)` — the key being the normalized agency code
when present, else the normalized-name fallback — and emits exactly one
output row per group, whose appropriation is the sum of the group's
appropriations; the descriptive fields (`project_name`, `status_type`)
carry the group's first value (its `iloc[0]`, which may be null), not its
first non-null value. Three rows sharing one key with appropriations
100, 200 and 50 yield exactly one row with appropriation 350. -/
theorem C7_duplicate_aggregation :
    (∀ (rows : List RawRow) (k : List ℕ × List ℕ), k ∈ rows.map rowKey →
      ∃ out ∈ aggregate_duplicate_projects rows,
        out.code = k.1 ∧
        out.appropriation =
          ((rows.filter (fun r => rowKey r = k)).map (fun r => r.appropriation)).sum ∧
        out.project_name =
          ((rows.filter (fun r => rowKey r = k)).head?.bind (fun r => r.project_name)) ∧
        out.status_type =
          ((rows.filter (fun r => rowKey r = k)).head?.bind (fun r => r.status_type))) ∧
    (∀ rows : List RawRow,
      (aggregate_duplicate_projects rows).length = ((rows.map rowKey).dedup).length) ∧
    ((aggregate_duplicate_projects rowsTriple).map (fun r => r.appropriation) = [350] ∧
      (aggregate_duplicate_projects rowsTriple).length = 1) := by
  refine ⟨?_, ?_, by decide, by decide⟩
  · intro rows k hk
    refine ⟨aggregateGroup k (rows.filter (fun r => rowKey r = k)), ?_, rfl, rfl, rfl, rfl⟩
    unfold aggregate_duplicate_projects
    refine List.mem_map.mpr ⟨k, ?_, rfl⟩
    rw [mem_sortByB]
    exact List.mem_dedup.mpr hk
  · intro rows
    unfold aggregate_duplicate_projects
    rw [List.length_map, length_sortByB]

unseal Rat.mul Rat.add Rat.inv Rat.sub in
/-- Counterexample for C7 as stated: two rows under one key whose first
`project_name` is null and second is `"X"` aggregate to a row whose
`project_name` is null — the first value, not the first non-null value
`some "X"` the claim requires. -/
theorem C7_first_value_counterexample :
    (aggregate_duplicate_projects rowsNullFirst).map (fun r => r.project_name) = [none] ∧
      specFirstNonNull (rowsNullFirst.map (fun r => r.project_name)) = some [88] ∧
      (none : Option (List ℕ)) ≠ some [88] := by
  exact ⟨by decide, by decide, by decide⟩

/-! ## Claim C1 -/

/-- Claim C1 (amended): every row of the performance table has
`performance_index` equal to its `compliance_rate_pct` alone
(src/app/analytics.py:821); the 40/20/20/10/10 weighted blend of the
claim is not what the table computes — the submission rate, completion
average, evidence proxy and recency inputs are reported in the row but not
blended into the index. -/
theorem C1_performance_index_equals_compliance :
    ∀ (db : Dashboard) (now : ℤ) (r : PerfRow),
      r ∈ mda_performance_table db now → r.performance_index = r.compliance_rate_pct := by
  intro db now r hr
  unfold mda_performance_table at hr
  rcases List.mem_filterMap.mp hr with ⟨mda, _, hmk⟩
  unfold mkPerfRow at hmk
  cases hfind : db.registry.find? (fun a => a.agency_code == mda.agency_code) with
  | none => rw [hfind] at hmk; simp at hmk
  | some agency =>
    rw [hfind] at hmk
    simp only [Option.map_some'] at hmk
    cases hmk
    rfl

unseal Rat.mul Rat.add Rat.inv Rat.sub in
/-- Witness for C1: single performance row over `dbPerf` has index equal to
its compliance rate. -/
theorem C1_performance_index_witness :
    rowPerf.performance_index = rowPerf.compliance_rate_pct :=
  C1_performance_index_equals_compliance dbPerf 10000000 rowPerf (by decide)

unseal Rat.mul Rat.add Rat.inv Rat.sub in
/-- Counterexample for C1 as stated: over `dbPerf` the single performance
row carries index 100 (its compliance rate), while the spec's
40/20/20/10/10 blend of that same row's reported signals evaluates to 40. -/
theorem C1_weighted_blend_counterexample :
    (mda_performance_table dbPerf 10000000).map
        (fun r => (r.performance_index, specPerformanceIndex r)) = [(100, 40)] ∧
      (100 : ℚ) ≠ 40 := by
  exact ⟨by decide, by decide⟩

/-! ## Claims C8, C3, C9 -/

/-- Lemma: the fields of a compliance record built for code `c`. -/
theorem mkComplianceRecord_fields (db : Dashboard) (c : List ℕ) (rec : ComplianceRecord)
    (h : mkComplianceRecord db c = some rec) :
    rec.agency_code = c ∧
      rec.expected_projects = expectedCount db c ∧
      rec.reported_projects = reportedCount db c ∧
      rec.compliance_rate_pct =
        (if 0 < expectedCount db c then
          min 100 ((reportedCount db c : ℚ) / (expectedCount db c : ℚ) * 100) else 0) := by
  unfold mkComplianceRecord at h
  cases hfind : db.registry.find? (fun a => a.agency_code == c && a.is_active) with
  | none => rw [hfind] at h; simp at h
  | some agency =>
    rw [hfind] at h
    simp only [Option.map_some'] at h
    cases h
    exact ⟨rfl, rfl, rfl, rfl⟩

/-- Lemma: membership in the compliance output comes from a canonical code. -/
theorem compliance_mem_elim (db : Dashboard) (rec : ComplianceRecord)
    (h : rec ∈ calculate_mda_compliance_data db) :
    ∃ c ∈ allCanonicalCodes db, mkComplianceRecord db c = some rec := by
  unfold calculate_mda_compliance_data at h
  rw [mem_sortByB] at h
  exact List.mem_filterMap.mp h

unseal Rat.mul Rat.add Rat.inv Rat.sub in
/-- Claim C8: every record of the compliance output satisfies
`complianceRatePct = min(100, reported/expected*100)` when
`expectedProjects > 0` and `0` otherwise; concretely, an entity with 2
expected and 5 reported projects gets rate 100, not 250. -/
theorem C8_compliance_cap :
    (∀ (db : Dashboard) (rec : ComplianceRecord),
        rec ∈ calculate_mda_compliance_data db →
        rec.compliance_rate_pct =
          (if 0 < rec.expected_projects then
            min 100 ((rec.reported_projects : ℚ) / (rec.expected_projects : ℚ) * 100)
          else 0)) ∧
      (∃ rec ∈ calculate_mda_compliance_data dbOverReport,
        rec.expected_projects = 2 ∧ rec.reported_projects = 5 ∧
          rec.compliance_rate_pct = 100) := by
  constructor
  · intro db rec hrec
    rcases compliance_mem_elim db rec hrec with ⟨c, _, hmk⟩
    rcases mkComplianceRecord_fields db c rec hmk with ⟨_, he, hr, hrate⟩
    rw [hrate, he, hr]
  · have h : ∃ rec ∈ calculate_mda_compliance_data dbOverReport,
        rec.expected_projects = 2 ∧ rec.reported_projects = 5 ∧
          rec.compliance_rate_pct = 100 := by
      have hlist : (calculate_mda_compliance_data dbOverReport).map
          (fun r => (r.expected_projects, r.reported_projects, r.compliance_rate_pct)) =
          [(2, 5, 100)] := by decide
      cases hc : calculate_mda_compliance_data dbOverReport with
      | nil => rw [hc] at hlist; simp at hlist
      | cons r t =>
        rw [hc] at hlist
        cases t with
        | nil =>
          simp only [List.map_cons, List.map_nil, List.cons.injEq, and_true] at hlist
          refine ⟨r, List.mem_cons_self r [], ?_⟩
          have h1 := congrArg Prod.fst hlist
          have h2 := congrArg (fun p => p.2.1) hlist
          have h3 := congrArg (fun p => p.2.2) hlist
          exact ⟨h1, h2, h3⟩
        | cons r' t' => simp at hlist
    exact h

/-- Lemma: a code never budgeted has expected count 0. -/
theorem expectedCount_eq_zero (db : Dashboard) (c : List ℕ)
    (h : ∀ p ∈ budgetPairs db, get_canonical_agency_code p.1 ≠ c) :
    expectedCount db c = 0 := by
  unfold expectedCount
  rw [show (budgetPairs db).filter (fun p => get_canonical_agency_code p.1 = c) = [] from
    List.filter_eq_nil_iff.mpr (by intro p hp; simpa using h p hp)]
  rfl

/-- Lemma: a code never surveyed has reported count 0. -/
theorem reportedCount_eq_zero (db : Dashboard) (c : List ℕ)
    (h : ∀ t ∈ surveyJoin db, get_canonical_agency_code t.1.agency_code ≠ c) :
    reportedCount db c = 0 := by
  unfold reportedCount
  rw [show (surveyJoin db).filter (fun t => get_canonical_agency_code t.1.agency_code = c) = []
    from List.filter_eq_nil_iff.mpr (by intro t ht; simpa using h t ht)]
  rfl

/-- Lemma: over a duplicate-free code list, exactly one produced compliance
record carries a present code. -/
theorem countP_filterMap_mk (db : Dashboard) (c : List ℕ) :
    ∀ codes : List (List ℕ), codes.Nodup → c ∈ codes →
      (mkComplianceRecord db c).isSome →
      ((codes.filterMap (mkComplianceRecord db)).countP (fun r => r.agency_code == c)) = 1 := by
  intro codes
  induction codes with
  | nil => intro _ hmem; cases hmem
  | cons c' cs ih =>
    intro hnodup hmem hsome
    have hnodup' := List.nodup_cons.mp hnodup
    rcases List.mem_cons.mp hmem with rfl | hmem'
    · rcases Option.isSome_iff_exists.mp hsome with ⟨rec, hrec⟩
      rw [List.filterMap_cons_some hrec]
      rw [List.countP_cons]
      have hcode : rec.agency_code = c := (mkComplianceRecord_fields db c rec hrec).1
      rw [show (rec.agency_code == c) = true from by simp [hcode]]
      have hzero : (cs.filterMap (mkComplianceRecord db)).countP
          (fun r => r.agency_code == c) = 0 := by
        apply List.countP_eq_zero.mpr
        intro r hr
        rcases List.mem_filterMap.mp hr with ⟨c'', hc'', hmkr⟩
        have : r.agency_code = c'' := (mkComplianceRecord_fields db c'' r hmkr).1
        simp only [this]
        intro hbeq
        exact hnodup'.1 (by rwa [show c'' = c from by simpa using hbeq] at hc'')
      simp [hzero]
    · have hc'c : c' ≠ c := by
        intro h
        exact hnodup'.1 (h ▸ hmem')
      cases hmk' : mkComplianceRecord db c' with
      | none =>
        rw [List.filterMap_cons_none hmk']
        exact ih hnodup'.2 hmem' hsome
      | some r' =>
        rw [List.filterMap_cons_some hmk']
        rw [List.countP_cons]
        have : r'.agency_code = c' := (mkComplianceRecord_fields db c' r' hmk').1
        rw [show (r'.agency_code == c) = false from by simp [this]; exact hc'c]
        rw [ih hnodup'.2 hmem' hsome]
        simp

/-- Claim C3 (amended): for every canonical code of the union of the budget
and survey groupings that belongs to an active registry entity, the
compliance output holds exactly one record under that code, with
budget-only codes at `reportedProjects = 0` and survey-only codes at
`expectedProjects = 0` and `complianceRatePct = 0`. (A code of either
grouping with no active registry entity is skipped, as the counterexample
shows, so the claim's unqualified union completeness fails.) -/
theorem C3_union_completeness_for_registered :
    ∀ (db : Dashboard) (c : List ℕ),
      c ∈ allCanonicalCodes db →
      (db.registry.find? (fun a => a.agency_code == c && a.is_active)).isSome →
      ∃ rec ∈ calculate_mda_compliance_data db,
        rec.agency_code = c ∧
        rec.expected_projects = expectedCount db c ∧
        rec.reported_projects = reportedCount db c ∧
        ((∀ t ∈ surveyJoin db, get_canonical_agency_code t.1.agency_code ≠ c) →
          rec.reported_projects = 0) ∧
        ((∀ p ∈ budgetPairs db, get_canonical_agency_code p.1 ≠ c) →
          rec.expected_projects = 0 ∧ rec.compliance_rate_pct = 0) ∧
        ((calculate_mda_compliance_data db).countP (fun r => r.agency_code == c)) = 1 := by
  intro db c hc hfind
  have hsome : (mkComplianceRecord db c).isSome := by
    unfold mkComplianceRecord
    rcases Option.isSome_iff_exists.mp hfind with ⟨a, ha⟩
    rw [ha]
    rfl
  rcases Option.isSome_iff_exists.mp hsome with ⟨rec, hrec⟩
  rcases mkComplianceRecord_fields db c rec hrec with ⟨hcode, he, hr, hrate⟩
  have hmem : rec ∈ calculate_mda_compliance_data db := by
    unfold calculate_mda_compliance_data
    rw [mem_sortByB]
    exact List.mem_filterMap.mpr ⟨c, hc, hrec⟩
  refine ⟨rec, hmem, hcode, he, hr, ?_, ?_, ?_⟩
  · intro hnos
    rw [hr]
    exact reportedCount_eq_zero db c hnos
  · intro hnob
    have hez : expectedCount db c = 0 := expectedCount_eq_zero db c hnob
    constructor
    · rw [he, hez]
    · rw [hrate, hez]
      simp
  · unfold calculate_mda_compliance_data
    rw [countP_sortByB]
    exact countP_filterMap_mk db c (allCanonicalCodes db) (List.nodup_dedup _) hc hsome

/-- Witness for C3: over `dbBudgetOnly` the registered code `"1"` appears in
the budget grouping only, and the compliance output carries exactly one
record for it with zero reported projects. -/
theorem C3_witness_budget_only :
    ∃ rec ∈ calculate_mda_compliance_data dbBudgetOnly,
      rec.agency_code = [49] ∧
      rec.expected_projects = expectedCount dbBudgetOnly [49] ∧
      rec.reported_projects = reportedCount dbBudgetOnly [49] ∧
      ((∀ t ∈ surveyJoin dbBudgetOnly, get_canonical_agency_code t.1.agency_code ≠ [49]) →
        rec.reported_projects = 0) ∧
      ((∀ p ∈ budgetPairs dbBudgetOnly, get_canonical_agency_code p.1 ≠ [49]) →
        rec.expected_projects = 0 ∧ rec.compliance_rate_pct = 0) ∧
      ((calculate_mda_compliance_data dbBudgetOnly).countP
        (fun r => r.agency_code == [49])) = 1 :=
  C3_union_completeness_for_registered dbBudgetOnly [49] (by decide) (by decide)

/-- Counterexample for C3 as stated: the code `"999"` appears in the budget
grouping of `dbOrphan` (so the claim requires a record for it), yet the
compliance output is empty — the code is silently dropped because no
active registry entity carries it. -/
theorem C3_unregistered_code_dropped :
    allCanonicalCodes dbOrphan = [[57, 57, 57]] ∧
      calculate_mda_compliance_data dbOrphan = [] := by
  exact ⟨by decide, by decide⟩

unseal Rat.mul Rat.add Rat.inv Rat.sub in
/-- Claim C9: the ministry rollup sums expected and reported projects over
the entities of each ministry and reports the volume-weighted rate
`aggregate reported / aggregate expected * 100` (0 when nothing is
expected), not the average of entity rates; two entities at
(expected 10, reported 10) and (expected 90, reported 0) in one ministry
give 10, not the 50 an average would give. -/
theorem C9_ministry_rollup_volume_weighted :
    (∀ (mda_data : List ComplianceRecord) (m : MinistryRecord),
        m ∈ ministryRollup mda_data →
        m.expected_projects =
          ((mda_data.filter (fun r => r.parent_ministry == m.ministry_name)).map
            (fun r => r.expected_projects)).sum ∧
        m.reported_projects =
          ((mda_data.filter (fun r => r.parent_ministry == m.ministry_name)).map
            (fun r => r.reported_projects)).sum ∧
        m.avg_completion =
          (if 0 < m.expected_projects then
            (m.reported_projects : ℚ) / (m.expected_projects : ℚ) * 100 else 0)) ∧
      ((ministryRollup [crTen, crNinety]).map (fun r => r.avg_completion) = [10] ∧
        (10 : ℚ) ≠ 50) := by
  refine ⟨?_, by decide, by decide⟩
  intro mda_data m hm
  unfold ministryRollup at hm
  rw [mem_sortByB] at hm
  rcases List.mem_map.mp hm with ⟨mn, _, hconstr⟩
  cases hconstr
  exact ⟨rfl, rfl, rfl⟩

/-! ## Claim C4: idempotence development -/

/-- Lemma: the ASCII upper-casing map is idempotent on code points. -/
theorem toUpperCh_idem (c : ℕ) : toUpperCh (toUpperCh c) = toUpperCh c := by
  unfold toUpperCh
  split_ifs with h1 h2 <;> omega

/-- Lemma: membership survives `dropWhile`. -/
theorem mem_of_mem_dropWhile {p : ℕ → Bool} {l : List ℕ} {c : ℕ}
    (h : c ∈ l.dropWhile p) : c ∈ l := by
  induction l with
  | nil => simpa using h
  | cons d ds ih =>
    rw [List.dropWhile_cons] at h
    split_ifs at h with hd
    · exact List.mem_cons_of_mem d (ih h)
    · exact h

/-- Lemma: membership survives `pyStrip`. -/
theorem mem_of_mem_pyStrip {l : List ℕ} {c : ℕ} (h : c ∈ pyStrip l) : c ∈ l := by
  unfold pyStrip at h
  rw [List.mem_reverse] at h
  have h1 := mem_of_mem_dropWhile h
  rw [List.mem_reverse] at h1
  exact mem_of_mem_dropWhile h1

/-- Lemma: membership survives one HQ-suffix strip. -/
theorem mem_of_mem_stripOneSuffix {cur suf : List ℕ} {c : ℕ}
    (h : c ∈ stripOneSuffix cur suf) : c ∈ cur := by
  unfold stripOneSuffix at h
  split_ifs at h with he
  · exact List.take_subset _ _ (mem_of_mem_pyStrip h)
  · exact h

/-- Lemma: membership survives the HQ-suffix loop. -/
theorem mem_of_mem_stripHQ {s : List ℕ} {c : ℕ} (h : c ∈ stripHQ s) : c ∈ s := by
  unfold stripHQ at h
  have main : ∀ (sufs : List (List ℕ)) (x : List ℕ), c ∈ sufs.foldl stripOneSuffix x → c ∈ x := by
    intro sufs
    induction sufs with
    | nil => intro x hx; exact hx
    | cons suf sufs ih =>
      intro x hx
      exact mem_of_mem_stripOneSuffix (ih (stripOneSuffix x suf) hx)
  exact main HQ_SUFFIXES s h

/-- Lemma: a character of `replaceAmp s` is an inserted `" AND "` character
or an original non-`&` character. -/
theorem mem_replaceAmp {s : List ℕ} {c : ℕ} (h : c ∈ replaceAmp s) :
    (c ∈ s ∧ c ≠ 38) ∨ c = 32 ∨ c = 65 ∨ c = 78 ∨ c = 68 := by
  unfold replaceAmp at h
  rcases List.mem_flatMap.mp h with ⟨d, hd, hc⟩
  by_cases h38 : d = 38
  · rw [if_pos h38] at hc
    right
    have : c = 32 ∨ c = 65 ∨ c = 78 ∨ c = 68 ∨ c = 32 := by simpa using hc
    tauto
  · rw [if_neg h38] at hc
    left
    rcases List.mem_singleton.mp hc with rfl
    exact ⟨hd, h38⟩

/-- Lemma: a character of a word of `splitAux` comes from the input or the
accumulator. -/
theorem splitAux_mem_chars :
    ∀ (s acc : List ℕ) (w : List ℕ) (c : ℕ), w ∈ splitAux s acc → c ∈ w →
      c ∈ s ∨ c ∈ acc := by
  intro s
  induction s with
  | nil =>
    intro acc w c hw hc
    unfold splitAux at hw
    split_ifs at hw with he
    · cases hw
    · rcases List.mem_singleton.mp hw with rfl
      right
      rwa [List.mem_reverse] at hc
  | cons d ds ih =>
    intro acc w c hw hc
    unfold splitAux at hw
    split_ifs at hw with hd he
    · rcases ih [] w c hw hc with h | h
      · exact Or.inl (List.mem_cons_of_mem d h)
      · cases h
    · rcases List.mem_cons.mp hw with rfl | hw'
      · right
        rwa [List.mem_reverse] at hc
      · rcases ih [] w c hw' hc with h | h
        · exact Or.inl (List.mem_cons_of_mem d h)
        · cases h
    · rcases ih (d :: acc) w c hw hc with h | h
      · exact Or.inl (List.mem_cons_of_mem d h)
      · rcases List.mem_cons.mp h with rfl | h'
        · exact Or.inl (List.mem_cons_self c ds)
        · exact Or.inr h'

/-- Lemma: with a whitespace-free accumulator, every word `splitAux`
produces is non-empty and whitespace-free. -/
theorem splitAux_words_clean :
    ∀ (s acc : List ℕ), (∀ c ∈ acc, isSpaceCh c = false) →
      ∀ w ∈ splitAux s acc, w ≠ [] ∧ ∀ c ∈ w, isSpaceCh c = false := by
  intro s
  induction s with
  | nil =>
    intro acc hacc w hw
    unfold splitAux at hw
    split_ifs at hw with he
    · cases hw
    · rcases List.mem_singleton.mp hw with rfl
      refine ⟨fun h => he (by simpa using List.reverse_eq_nil_iff.mp h), ?_⟩
      intro c hc
      exact hacc c (List.mem_reverse.mp hc)
  | cons d ds ih =>
    intro acc hacc w hw
    unfold splitAux at hw
    split_ifs at hw with hd he
    · exact ih [] (by intro c hc; cases hc) w hw
    · rcases List.mem_cons.mp hw with rfl | hw'
      · refine ⟨fun h => he (by simpa using List.reverse_eq_nil_iff.mp h), ?_⟩
        intro c hc
        exact hacc c (List.mem_reverse.mp hc)
      · exact ih [] (by intro c hc; cases hc) w hw'
    · refine ih (d :: acc) ?_ w hw
      intro c hc
      rcases List.mem_cons.mp hc with rfl | hc'
      · exact eq_false_of_ne_true hd
      · exact hacc c hc'

/-- Lemma: a character of `unwordsWs ws` is a separator space or a
character of some word. -/
theorem mem_unwordsWs {ws : List (List ℕ)} {c : ℕ} (h : c ∈ unwordsWs ws) :
    c = 32 ∨ ∃ w ∈ ws, c ∈ w := by
  induction ws with
  | nil => cases h
  | cons w tail ih =>
    cases tail with
    | nil =>
      right
      exact ⟨w, List.mem_cons_self w [], h⟩
    | cons w' t' =>
      rw [show unwordsWs (w :: w' :: t') = w ++ 32 :: unwordsWs (w' :: t') from rfl] at h
      rcases List.mem_append.mp h with h1 | h2
      · exact Or.inr ⟨w, List.mem_cons_self w _, h1⟩
      · rcases List.mem_cons.mp h2 with rfl | h3
        · exact Or.inl rfl
        · rcases ih h3 with h4 | ⟨v, hv, hcv⟩
          · exact Or.inl h4
          · exact Or.inr ⟨v, List.mem_cons_of_mem w hv, hcv⟩

/-- Lemma: mapping a function that fixes every member is the identity. -/
theorem map_id_of_forall {f : ℕ → ℕ} {l : List ℕ} (h : ∀ c ∈ l, f c = c) :
    l.map f = l := by
  induction l with
  | nil => rfl
  | cons c cs ih =>
    rw [List.map_cons, h c (List.mem_cons_self c cs),
      ih (fun d hd => h d (List.mem_cons_of_mem c hd))]

/-- Lemma: a flat map that sends every member to its singleton is the
identity. -/
theorem flatMap_singleton_of_forall {f : ℕ → List ℕ} {l : List ℕ}
    (h : ∀ c ∈ l, f c = [c]) : l.flatMap f = l := by
  induction l with
  | nil => rfl
  | cons c cs ih =>
    rw [List.flatMap_cons, h c (List.mem_cons_self c cs),
      ih (fun d hd => h d (List.mem_cons_of_mem c hd))]
    rfl

/-- Lemma: `dropWhile` is the identity when the head fails the predicate. -/
theorem dropWhile_eq_self_of_head {p : ℕ → Bool} {l : List ℕ}
    (h : ∀ c, l.head? = some c → p c = false) : l.dropWhile p = l := by
  cases l with
  | nil => rfl
  | cons c cs =>
    rw [List.dropWhile_cons, if_neg]
    rw [h c rfl]
    simp

/-- Lemma: `pyStrip` is the identity on a list whose first and last
characters are not whitespace. -/
theorem pyStrip_eq_self {l : List ℕ}
    (h1 : ∀ c, l.head? = some c → isSpaceCh c = false)
    (h2 : ∀ c, l.getLast? = some c → isSpaceCh c = false) : pyStrip l = l := by
  unfold pyStrip
  rw [dropWhile_eq_self_of_head h1]
  rw [dropWhile_eq_self_of_head (by
    intro c hc
    rw [List.head?_reverse] at hc
    exact h2 c hc)]
  exact List.reverse_reverse l

/-- Lemma: the first character of `unwordsWs (w :: ws)` is `w`'s first
character when `w` is non-empty. -/
theorem head?_unwordsWs (w : List ℕ) (ws : List (List ℕ)) (hw : w ≠ []) :
    (unwordsWs (w :: ws)).head? = w.head? := by
  cases ws with
  | nil => rfl
  | cons w' t =>
    cases w with
    | nil => exact absurd rfl hw
    | cons c cs => rfl

/-- Lemma: `unwordsWs` of a non-empty word list with non-empty words ends
with the last character of some word. -/
theorem getLast?_unwordsWs :
    ∀ ws : List (List ℕ), ws ≠ [] → (∀ w ∈ ws, w ≠ []) →
      ∃ w ∈ ws, (unwordsWs ws).getLast? = w.getLast? := by
  intro ws
  induction ws with
  | nil => intro h; exact absurd rfl h
  | cons w tail ih =>
    intro _ hwords
    cases tail with
    | nil => exact ⟨w, List.mem_cons_self w [], rfl⟩
    | cons w' t' =>
      have hne : unwordsWs (w' :: t') ≠ [] := by
        cases t' with
        | nil => exact hwords w' (List.mem_cons_of_mem w (List.mem_cons_self w' []))
        | cons w'' t'' => simp [unwordsWs]
      rcases ih (by simp) (fun v hv => hwords v (List.mem_cons_of_mem w hv)) with ⟨v, hv, hlast⟩
      refine ⟨v, List.mem_cons_of_mem w hv, ?_⟩
      rw [show unwordsWs (w :: w' :: t') = w ++ 32 :: unwordsWs (w' :: t') from rfl]
      rw [List.getLast?_append]
      cases hu : unwordsWs (w' :: t') with
      | nil => exact absurd hu hne
      | cons x xs =>
        rw [hu] at hlast
        rw [List.getLast?_cons_cons, hlast]
        cases hvl : v.getLast? with
        | none =>
          rw [hvl] at hlast
          have : x :: xs = [] := by
            simpa [List.getLast?_eq_none_iff] using hlast
          cases this
        | some y => simp

/-- Lemma: `splitAux` consumes a whitespace-free chunk into the
accumulator. -/
theorem splitAux_chunk :
    ∀ (w t acc : List ℕ), (∀ c ∈ w, isSpaceCh c = false) →
      splitAux (w ++ t) acc = splitAux t (w.reverse ++ acc) := by
  intro w
  induction w with
  | nil => intro t acc _; rfl
  | cons c w' ih =>
    intro t acc hw
    rw [List.cons_append]
    rw [show splitAux (c :: (w' ++ t)) acc = splitAux (w' ++ t) (c :: acc) from by
      rw [show splitAux (c :: (w' ++ t)) acc =
        (if isSpaceCh c = true then
          (if acc.isEmpty = true then splitAux (w' ++ t) []
            else acc.reverse :: splitAux (w' ++ t) [])
          else splitAux (w' ++ t) (c :: acc)) from rfl]
      rw [if_neg (by rw [hw c (List.mem_cons_self c w')]; simp)]]
    rw [ih t (c :: acc) (fun d hd => hw d (List.mem_cons_of_mem c hd))]
    rw [List.reverse_cons, List.append_assoc, List.singleton_append]

/-- Lemma: splitting the space-joined words recovers them when each word is
non-empty and whitespace-free. -/
theorem pySplitWs_unwordsWs :
    ∀ ws : List (List ℕ), (∀ w ∈ ws, w ≠ [] ∧ ∀ c ∈ w, isSpaceCh c = false) →
      pySplitWs (unwordsWs ws) = ws := by
  intro ws
  induction ws with
  | nil => intro _; rfl
  | cons w tail ih =>
    intro hws
    have hw := hws w (List.mem_cons_self w tail)
    cases tail with
    | nil =>
      show splitAux (unwordsWs [w]) [] = [w]
      rw [show unwordsWs [w] = w from rfl]
      rw [show w = w ++ [] from (List.append_nil w).symm, splitAux_chunk w [] [] hw.2]
      unfold splitAux
      rw [if_neg (by simpa using fun h => hw.1 (List.reverse_eq_nil_iff.mp
        (by simpa using h)))]
      simp
    | cons w' t' =>
      show splitAux (unwordsWs (w :: w' :: t')) [] = w :: w' :: t'
      rw [show unwordsWs (w :: w' :: t') = w ++ 32 :: unwordsWs (w' :: t') from rfl]
      rw [splitAux_chunk w _ [] hw.2]
      unfold splitAux
      rw [if_pos (by decide)]
      rw [if_neg (by simpa using fun h => hw.1 (List.reverse_eq_nil_iff.mp
        (by simpa using h)))]
      rw [List.append_nil, List.reverse_reverse]
      have := ih (fun v hv => hws v (List.mem_cons_of_mem w hv))
      rw [show splitAux (unwordsWs (w' :: t')) [] = pySplitWs (unwordsWs (w' :: t')) from rfl,
        this]

/-- Lemma: `pyStrip` fixes the space-joined form of non-empty
whitespace-free words. -/
theorem pyStrip_unwordsWs (ws : List (List ℕ))
    (hws : ∀ w ∈ ws, w ≠ [] ∧ ∀ c ∈ w, isSpaceCh c = false) :
    pyStrip (unwordsWs ws) = unwordsWs ws := by
  cases hw0 : ws with
  | nil => rfl
  | cons w tail =>
    apply pyStrip_eq_self
    · intro c hc
      rw [head?_unwordsWs w tail (hws w (by rw [hw0]; exact List.mem_cons_self w tail)).1] at hc
      have hwword := hws w (by rw [hw0]; exact List.mem_cons_self w tail)
      cases w with
      | nil => exact absurd rfl hwword.1
      | cons d ds =>
        simp only [List.head?_cons, Option.some.injEq] at hc
        subst hc
        exact hwword.2 d (List.mem_cons_self d ds)
    · intro c hc
      rcases getLast?_unwordsWs (w :: tail) (by simp)
        (fun v hv => (hws v (by rw [hw0]; exact hv)).1) with ⟨v, hv, hlast⟩
      rw [hlast] at hc
      have hvword := hws v (by rw [hw0]; exact hv)
      rcases List.getLast?_eq_some_iff.mp hc with ⟨ys, hys⟩
      refine hvword.2 c ?_
      rw [hys]
      exact List.mem_append_right ys (List.mem_singleton.mpr rfl)

/-- Lemma: over input whose characters are upper-case-fixed and not `&`,
the whitespace-collapsed form is a fixed point of upper-casing, stripping,
`&`-replacement and collapsing. -/
theorem collapseWs_fixed (X : List ℕ) (hX : ∀ c ∈ X, toUpperCh c = c ∧ c ≠ 38) :
    pyUpper (collapseWs X) = collapseWs X ∧
      pyStrip (collapseWs X) = collapseWs X ∧
      replaceAmp (collapseWs X) = collapseWs X ∧
      collapseWs (collapseWs X) = collapseWs X := by
  have hclean : ∀ w ∈ pySplitWs X, w ≠ [] ∧ ∀ c ∈ w, isSpaceCh c = false :=
    splitAux_words_clean X [] (by intro c hc; cases hc)
  have hchars : ∀ c ∈ collapseWs X, toUpperCh c = c ∧ c ≠ 38 := by
    intro c hc
    rcases mem_unwordsWs hc with rfl | ⟨w, hw, hcw⟩
    · exact ⟨by decide, by decide⟩
    · have hcX : c ∈ X := by
        rcases splitAux_mem_chars X [] w c hw hcw with h | h
        · exact h
        · cases h
      exact hX c hcX
  refine ⟨?_, ?_, ?_, ?_⟩
  · exact map_id_of_forall (fun c hc => (hchars c hc).1)
  · exact pyStrip_unwordsWs (pySplitWs X) hclean
  · exact flatMap_singleton_of_forall (fun c hc => by rw [if_neg (hchars c hc).2])
  · show unwordsWs (pySplitWs (unwordsWs (pySplitWs X))) = unwordsWs (pySplitWs X)
    rw [pySplitWs_unwordsWs (pySplitWs X) hclean]

/-- Lemma: when no HQ suffix ends the string, the HQ-suffix loop is the
identity. -/
theorem stripHQ_eq_self_of_no_suffix (x : List ℕ)
    (h : ∀ suf ∈ HQ_SUFFIXES, endsWithSeg suf x = false) : stripHQ x = x := by
  unfold stripHQ
  have main : ∀ sufs : List (List ℕ), (∀ suf ∈ sufs, endsWithSeg suf x = false) →
      sufs.foldl stripOneSuffix x = x := by
    intro sufs
    induction sufs with
    | nil => intro _; rfl
    | cons suf sufs ih =>
      intro hsufs
      rw [List.foldl_cons]
      rw [show stripOneSuffix x suf = x from by
        unfold stripOneSuffix
        rw [hsufs suf (List.mem_cons_self suf sufs)]
        simp]
      exact ih (fun s hs => hsufs s (List.mem_cons_of_mem suf hs))
  exact main HQ_SUFFIXES h

/-- Claim C4 (amended): the plain normalizer `MinistryAgency.normalize_name`
is idempotent for every string; the suffix-stripping normalizer
`AgencyConsolidationRules.normalize_ministry_name` is idempotent whenever
its output does not itself end with an HQ suffix — but not in general,
because one pass strips at most one layer of suffixes in list order, so a
re-exposed suffix (see the counterexample) is only removed by a second
pass. -/
theorem C4_normalize_idempotence :
    (∀ s : List ℕ, normalize_name (normalize_name s) = normalize_name s) ∧
      (∀ s : List ℕ,
        (∀ suf ∈ HQ_SUFFIXES, endsWithSeg suf (normalize_ministry_name s) = false) →
        normalize_ministry_name (normalize_ministry_name s) = normalize_ministry_name s) := by
  constructor
  · intro s
    by_cases hs : s = []
    · subst hs
      rfl
    · rw [show normalize_name s = collapseWs (replaceAmp (pyStrip (pyUpper s))) from by
        rw [normalize_name, if_neg hs]]
      have hXchars : ∀ c ∈ replaceAmp (pyStrip (pyUpper s)), toUpperCh c = c ∧ c ≠ 38 := by
        intro c hc
        rcases mem_replaceAmp hc with ⟨hcs, h38⟩ | h | h | h | h
        · rcases List.mem_map.mp (mem_of_mem_pyStrip hcs) with ⟨d, _, rfl⟩
          exact ⟨toUpperCh_idem d, h38⟩
        · subst h; exact ⟨by decide, by decide⟩
        · subst h; exact ⟨by decide, by decide⟩
        · subst h; exact ⟨by decide, by decide⟩
        · subst h; exact ⟨by decide, by decide⟩
      obtain ⟨hU, hS, hA, hC⟩ := collapseWs_fixed _ hXchars
      by_cases hR : collapseWs (replaceAmp (pyStrip (pyUpper s))) = []
      · rw [hR]
        rfl
      · rw [show normalize_name (collapseWs (replaceAmp (pyStrip (pyUpper s)))) =
          collapseWs (replaceAmp (pyStrip (pyUpper
            (collapseWs (replaceAmp (pyStrip (pyUpper s))))))) from by
          rw [normalize_name, if_neg hR]]
        rw [hU, hS, hA, hC]
  · intro s hnosuf
    by_cases hs : s = []
    · subst hs
      rfl
    · rw [show normalize_ministry_name s =
        collapseWs (replaceAmp (stripHQ (pyStrip (pyUpper s)))) from by
        rw [normalize_ministry_name, if_neg hs]] at hnosuf ⊢
      have hXchars : ∀ c ∈ replaceAmp (stripHQ (pyStrip (pyUpper s))),
          toUpperCh c = c ∧ c ≠ 38 := by
        intro c hc
        rcases mem_replaceAmp hc with ⟨hcs, h38⟩ | h | h | h | h
        · rcases List.mem_map.mp (mem_of_mem_pyStrip (mem_of_mem_stripHQ hcs)) with
            ⟨d, _, rfl⟩
          exact ⟨toUpperCh_idem d, h38⟩
        · subst h; exact ⟨by decide, by decide⟩
        · subst h; exact ⟨by decide, by decide⟩
        · subst h; exact ⟨by decide, by decide⟩
        · subst h; exact ⟨by decide, by decide⟩
      obtain ⟨hU, hS, hA, hC⟩ := collapseWs_fixed _ hXchars
      by_cases hR : collapseWs (replaceAmp (stripHQ (pyStrip (pyUpper s)))) = []
      · rw [hR]
        rfl
      · rw [show normalize_ministry_name
          (collapseWs (replaceAmp (stripHQ (pyStrip (pyUpper s))))) =
          collapseWs (replaceAmp (stripHQ (pyStrip (pyUpper
            (collapseWs (replaceAmp (stripHQ (pyStrip (pyUpper s))))))))) from by
          rw [normalize_ministry_name, if_neg hR]]
        rw [hU, hS, stripHQ_eq_self_of_no_suffix _ hnosuf, hA, hC]

/-- Witness for C4: the name `"AB"` satisfies the no-re-exposed-suffix side
condition, and both normalizers are idempotent on it. -/
theorem C4_idempotence_witness :
    normalize_ministry_name (normalize_ministry_name [65, 66]) =
      normalize_ministry_name [65, 66] :=
  C4_normalize_idempotence.2 [65, 66] (by decide)

/-- Counterexample for C4 as stated: on `"X HQ HQ"` one pass of
`normalize_ministry_name` strips only the outer `"HQ"` (leaving
`"X HQ"`), and a second pass strips again (leaving `"X"`), so
`normalize(normalize(s)) ≠ normalize(s)`. -/
theorem C4_hq_suffix_counterexample :
    normalize_ministry_name [88, 32, 72, 81, 32, 72, 81] = [88, 32, 72, 81] ∧
      normalize_ministry_name (normalize_ministry_name [88, 32, 72, 81, 32, 72, 81]) = [88] ∧
      ([88] : List ℕ) ≠ [88, 32, 72, 81] := by
  exact ⟨by decide, by decide, by decide⟩
